import Mathlib

/-!
Shallow embedding of gin-contrib/size (src/size.go): a byte-count limiting
body reader (`maxBytesReader`) installed by the `RequestSizeLimiter`
middleware.  The gin context is modelled as a journal of the side effects
the gate performs on it; the underlying body stream is a parameter, a
state-passing read function, so that theorems quantify over arbitrary
underlying readers where the code does not depend on a particular one.
-/

namespace GinSize

/-- Read errors visible in the embedding: end of stream (io.EOF), the
request-too-large error (errRequestTooLarge), or any other stream error,
distinguished by a code. -/
inductive Err where
  | eof
  | tooLarge
  | other (code : Nat)
deriving DecidableEq, Repr

/-- Journal of the side effects the gate performs on the gin context:
errors appended by ctx.Error, headers set by ctx.Header, responses written
by ctx.AbortWithStatusJSON (status code and body), and whether the context
has been aborted. -/
structure Ctx where
  errors : List Err
  headers : List (String × String)
  responses : List (Nat × String)
  aborted : Bool
deriving DecidableEq, Repr

/-- A fresh context with no recorded effects. -/
def emptyCtx : Ctx := ⟨[], [], [], false⟩

/-- State of maxBytesReader (src/size.go): `remaining` is the Go int64
field, modelled as Int; the gin context and the underlying reader are
threaded explicitly through the operations instead of being stored as
fields. -/
structure maxBytesReader where
  remaining : Int
  wasAborted : Bool
  sawEOF : Bool
deriving DecidableEq, Repr

/-- The fixed JSON body written on overflow by AbortWithStatusJSON. -/
def errorJSON : String := "\x7b\"error\":\"request too large\"\x7d"

/-- The three context effects performed inside tooLarge when it fires:
append errRequestTooLarge, set the Connection close header, write the 413
JSON response and abort the context. -/
def applyAbort (ctx : Ctx) : Ctx :=
  { errors := ctx.errors ++ [Err.tooLarge]
    headers := ctx.headers ++ [("Connection", "close")]
    responses := ctx.responses ++ [(413, errorJSON)]
    aborted := true }

/-- tooLarge (src/size.go lines 22-32): performs the abort side effects
once, guarded by wasAborted, and returns the byte count 0 together with
errRequestTooLarge. -/
def tooLarge (mbr : maxBytesReader) (ctx : Ctx) :
    maxBytesReader × Ctx × Nat × Option Err :=
  if mbr.wasAborted then
    (mbr, ctx, 0, some Err.tooLarge)
  else
    ({ mbr with wasAborted := true }, applyAbort ctx, 0, some Err.tooLarge)

/-- Read (src/size.go lines 34-76).  The underlying reader is a function
`rdr` from a requested byte count and reader state to (bytes read, error,
new state); the caller's buffer appears as its length `lenP`, and the
bytes delivered to the caller are returned as a list (the Go return count
n is their length, and a list shorter than `lenP` models n < len(p)).
Returns `none` exactly when the Go code would panic, which can happen only
through the slice expression p = p[:toRead] with toRead < 0, i.e. when
`remaining` is negative on entry.  The nested Go conditional on
remaining == 0 and sawEOF is flattened into the guard
`remaining = 0 ∧ sawEOF = true`. -/
def maxBytesReader.Read {σ : Type} (rdr : Nat → σ → List Nat × Option Err × σ)
    (mbr : maxBytesReader) (ctx : Ctx) (lenP : Nat) (s : σ) :
    Option (maxBytesReader × Ctx × σ × List Nat × Option Err) :=
  if mbr.wasAborted then
    some (mbr, ctx, s, [], some Err.tooLarge)
  else if mbr.remaining = 0 ∧ mbr.sawEOF = true then
    let t := tooLarge mbr ctx
    some (t.1, t.2.1, s, [], t.2.2.2)
  else
    let toRead : Int := if mbr.remaining = 0 then 1 else mbr.remaining
    if toRead < 0 then
      none
    else
      let reqLen : Nat := if (lenP : Int) > toRead then toRead.toNat else lenP
      let r := rdr reqLen s
      let chunk : List Nat := r.1
      let err : Option Err := r.2.1
      let s1 : σ := r.2.2
      let mbr1 := if err = some Err.eof then { mbr with sawEOF := true } else mbr
      if mbr1.remaining = 0 then
        if 0 < chunk.length then
          let t := tooLarge mbr1 ctx
          some (t.1, t.2.1, s1, [], t.2.2.2)
        else
          some (mbr1, ctx, s1, [], err)
      else
        let rem := mbr1.remaining - chunk.length
        some ({ mbr1 with remaining := if rem < 0 then 0 else rem }, ctx, s1, chunk, err)

/-- Close (src/size.go lines 78-80): forwards to the underlying reader's
close; the gate state and the context are returned unchanged because the
Go body performs no assignment. -/
def maxBytesReader.Close {σ : Type} (rdrClose : σ → Option Err × σ)
    (mbr : maxBytesReader) (ctx : Ctx) (s : σ) :
    maxBytesReader × Ctx × (Option Err × σ) :=
  (mbr, ctx, rdrClose s)

/-- RequestSizeLimiter (src/size.go lines 88-98): the middleware replaces
the request body with a fresh maxBytesReader whose remaining is the limit
and whose flags are false; this definition is that construction. -/
def RequestSizeLimiter (limit : Int) : maxBytesReader :=
  { remaining := limit, wasAborted := false, sawEOF := false }

/-- An in-memory request body: returns up to `req` bytes with no error
while bytes remain, and (0 bytes, io.EOF) once exhausted — the behaviour
of the bytes.Buffer bodies used by the repository's tests. -/
def bodyRead (req : Nat) (s : List Nat) : List Nat × Option Err × List Nat :=
  if s.isEmpty then ([], some Err.eof, s)
  else (s.take req, none, s.drop req)

/-- Wraps an underlying reader so that the state also records, in order,
the byte count of every request issued to the underlying reader. -/
def recording {σ : Type} (rdr : Nat → σ → List Nat × Option Err × σ) :
    Nat → σ × List Nat → List Nat × Option Err × (σ × List Nat) :=
  fun req st =>
    let r := rdr req st.1
    (r.1, r.2.1, (r.2.2, st.2 ++ [req]))

/-- The request log of a Read performed through `recording`. -/
def reqLog {σ : Type}
    (r : Option (maxBytesReader × Ctx × (σ × List Nat) × List Nat × Option Err)) :
    Option (List Nat) :=
  r.map fun out => out.2.2.1.2

/-- Runs one Read per entry of `caps` (each entry a buffer length),
threading gate, context and stream state, and concatenating all bytes
delivered to the caller; `none` if any Read panics. -/
def runReads {σ : Type} (rdr : Nat → σ → List Nat × Option Err × σ) :
    List Nat → maxBytesReader → Ctx → σ →
    Option (maxBytesReader × Ctx × σ × List Nat)
  | [], mbr, ctx, s => some (mbr, ctx, s, [])
  | cap :: caps, mbr, ctx, s =>
    match maxBytesReader.Read rdr mbr ctx cap s with
    | none => none
    | some (mbr1, ctx1, s1, d, _) =>
      match runReads rdr caps mbr1 ctx1 s1 with
      | none => none
      | some (mbr2, ctx2, s2, ds) => some (mbr2, ctx2, s2, d ++ ds)

/-- The read loop of a body consumer (io.ReadAll, or the chunked-reading
test handler): repeatedly Read with a buffer of length `cap` against an
in-memory body, append the delivered bytes, and stop at the first non-nil
error, which is returned.  `fuel` bounds the number of iterations; a
result with error `none` means the fuel ran out or a Read panicked. -/
def driveBody (cap : Nat) :
    Nat → maxBytesReader → Ctx → List Nat → List Nat →
    maxBytesReader × Ctx × List Nat × List Nat × Option Err
  | 0, mbr, ctx, s, acc => (mbr, ctx, s, acc, none)
  | Nat.succ fuel, mbr, ctx, s, acc =>
    match maxBytesReader.Read bodyRead mbr ctx cap s with
    | none => (mbr, ctx, s, acc, none)
    | some (mbr1, ctx1, s1, d, none) => driveBody cap fuel mbr1 ctx1 s1 (acc ++ d)
    | some (mbr1, ctx1, s1, d, some e) => (mbr1, ctx1, s1, acc ++ d, some e)

/-!
Step lemmas: the value of one Read call in each situation the proofs
visit.  Each is proved by unfolding the definition and discharging the
branch conditions.
-/

/-- A Read on a gate that has already aborted returns zero bytes and the
terminal error, touching neither the context nor the stream. -/
theorem Read_of_wasAborted {σ : Type} (rdr : Nat → σ → List Nat × Option Err × σ)
    (mbr : maxBytesReader) (ctx : Ctx) (lenP : Nat) (s : σ)
    (h : mbr.wasAborted = true) :
    maxBytesReader.Read rdr mbr ctx lenP s = some (mbr, ctx, s, [], some Err.tooLarge) := by
  unfold maxBytesReader.Read
  simp [h]

/-- A Read at remaining = 0 with sawEOF set fires the abort sequence and
returns the terminal error without touching the stream. -/
theorem Read_overflow_exhausted {σ : Type} (rdr : Nat → σ → List Nat × Option Err × σ)
    (mbr : maxBytesReader) (ctx : Ctx) (lenP : Nat) (s : σ)
    (h1 : mbr.wasAborted = false) (h2 : mbr.remaining = 0) (h3 : mbr.sawEOF = true) :
    maxBytesReader.Read rdr mbr ctx lenP s
      = some ({ mbr with wasAborted := true }, applyAbort ctx, s, [], some Err.tooLarge) := by
  unfold maxBytesReader.Read tooLarge
  simp [h1, h2, h3]

/-- A Read with positive remaining r against a nonempty in-memory body
delivers the first min cap r bytes of the body and decrements remaining
by the number delivered. -/
theorem Read_body_fill (r : Nat) (hr : 0 < r) (ctx : Ctx) (cap : Nat)
    (s : List Nat) (hs : s ≠ []) (sawE : Bool) :
    maxBytesReader.Read bodyRead ⟨(r : Int), false, sawE⟩ ctx cap s
      = some (⟨((r - min (min cap r) s.length : Nat) : Int), false, sawE⟩, ctx,
          s.drop (min cap r), s.take (min cap r), none) := by
  have hrne : r ≠ 0 := hr.ne.symm
  have hsE : s.isEmpty = false := by simpa [List.isEmpty_iff] using hs
  unfold maxBytesReader.Read bodyRead
  simp [hsE, hrne]
  have hif : (if r < cap then r else cap) = cap ⊓ r := by
    rw [Nat.min_def]; split_ifs <;> omega
  have hifInt : (if r < cap then (r : Int) else (cap : Int)) = ((cap ⊓ r : Nat) : Int) := by
    rw [Nat.min_def]; split_ifs <;> omega
  refine ⟨?_, ?_, ?_⟩
  · rw [hifInt]
    split_ifs with h1 <;> push_cast <;> omega
  · rw [hif]
  · rw [hif, Nat.min_assoc]

/-- A Read with positive remaining against an exhausted in-memory body
reports end of stream, sets sawEOF, and leaves remaining unchanged. -/
theorem Read_body_eof (r : Nat) (hr : 0 < r) (ctx : Ctx) (cap : Nat) (sawE : Bool) :
    maxBytesReader.Read bodyRead ⟨(r : Int), false, sawE⟩ ctx cap []
      = some (⟨(r : Int), false, true⟩, ctx, [], [], some Err.eof) := by
  have hrne : r ≠ 0 := hr.ne.symm
  unfold maxBytesReader.Read bodyRead
  simp [hrne]

/-- The one-byte probe at remaining = 0 against a nonempty in-memory body
with a buffer of length at least one: the probe byte triggers the abort
sequence and is discarded. -/
theorem Read_body_probe_hit (ctx : Ctx) (cap : Nat) (hcap : 1 ≤ cap)
    (s : List Nat) (hs : s ≠ []) :
    maxBytesReader.Read bodyRead ⟨0, false, false⟩ ctx cap s
      = some (⟨0, true, false⟩, applyAbort ctx, s.drop 1, [], some Err.tooLarge) := by
  have hsE : s.isEmpty = false := by simpa [List.isEmpty_iff] using hs
  have hlen : 0 < s.length := List.length_pos.mpr hs
  have hreq : (if 1 < cap then 1 else cap) = 1 := by split_ifs <;> omega
  unfold maxBytesReader.Read bodyRead tooLarge
  simp [hsE, hreq, hlen, List.drop_one]

/-- The one-byte probe at remaining = 0 against an exhausted in-memory
body: end of stream is reported cleanly and sawEOF becomes true. -/
theorem Read_body_probe_eof (ctx : Ctx) (cap : Nat) :
    maxBytesReader.Read bodyRead ⟨0, false, false⟩ ctx cap []
      = some (⟨0, false, true⟩, ctx, [], [], some Err.eof) := by
  unfold maxBytesReader.Read bodyRead
  simp

/-- Driving a read loop against a body of size S with limit L < S: the
first L bytes are delivered, the probe byte that proves overflow is
discarded, the abort effects are applied to the context once, and the
loop ends with the terminal error.  Stated for the k-th intermediate
state so that it can be proved by induction on fuel. -/
theorem driveBody_over_aux (L cap : Nat) (hcap : 1 ≤ cap) (body : List Nat)
    (hLS : L < body.length) (ctx : Ctx) :
    ∀ fuel k acc, k ≤ L → L - k + 1 ≤ fuel →
    driveBody cap fuel ⟨((L - k : Nat) : Int), false, false⟩ ctx (body.drop k) acc
      = (⟨0, true, false⟩, applyAbort ctx, body.drop (L + 1),
         acc ++ (body.drop k).take (L - k), some Err.tooLarge) := by
  intro fuel
  induction fuel with
  | zero => intro k acc hk hf; omega
  | succ f ih =>
    intro k acc hk hf
    have hne : body.drop k ≠ [] := by
      intro h
      have := List.drop_eq_nil_iff.mp h
      omega
    by_cases hkL : k = L
    · have hz : ((L - k : Nat) : Int) = 0 := by omega
      have hz2 : L - k = 0 := by omega
      rw [hz, hz2, List.take_zero, List.append_nil]
      have hstep := Read_body_probe_hit ctx cap hcap (body.drop k) hne
      simp only [driveBody, hstep, List.append_nil, List.drop_drop]
      rw [hkL]
    · have hkL2 : k < L := by omega
      have hrpos : 0 < L - k := by omega
      have hstep := Read_body_fill (L - k) hrpos ctx cap (body.drop k) hne false
      have hld : (body.drop k).length = body.length - k := by simp
      rw [hld] at hstep
      set m1 := min cap (L - k) with hm1
      have hm1le : m1 ≤ L - k := by rw [hm1]; omega
      have hmeq : min m1 (body.length - k) = m1 := by
        rw [Nat.min_def]; split_ifs <;> omega
      rw [hmeq] at hstep
      have hm1pos : 1 ≤ m1 := by
        rw [hm1, Nat.min_def]; split_ifs <;> omega
      simp only [driveBody, hstep]
      have hrem : (L - k) - m1 = L - (k + m1) := by omega
      have hdrop : (body.drop k).drop m1 = body.drop (k + m1) := List.drop_drop ..
      rw [hrem, hdrop]
      rw [ih (k + m1) (acc ++ (body.drop k).take m1) (by omega) (by omega)]
      rw [List.append_assoc]
      have : (body.drop k).take m1 ++ (body.drop (k + m1)).take (L - (k + m1))
          = (body.drop k).take (L - k) := by
        rw [← List.drop_drop]
        rw [← List.take_add]
        congr 1
        omega
      rw [this]


set_option maxHeartbeats 1000000 in
/-- One Read never increases remaining, never drives it negative from a
nonnegative start, and decreases it by at most the number of bytes
delivered — for an arbitrary underlying reader. -/
theorem Read_remaining_step {σ : Type} (rdr : Nat → σ → List Nat × Option Err × σ)
    (mbr : maxBytesReader) (ctx : Ctx) (cap : Nat) (s : σ)
    (out : maxBytesReader × Ctx × σ × List Nat × Option Err)
    (h0 : 0 ≤ mbr.remaining)
    (h : maxBytesReader.Read rdr mbr ctx cap s = some out) :
    0 ≤ out.1.remaining ∧ out.1.remaining ≤ mbr.remaining ∧
      mbr.remaining ≤ out.1.remaining + ((out.2.2.2.1).length : Int) := by
  unfold maxBytesReader.Read tooLarge at h
  simp only [] at h
  repeat' split at h
  all_goals (first
    | exact Option.noConfusion h
    | (simp only [Option.some.injEq] at h; subst h;
       refine ⟨?_, ?_, ?_⟩ <;> (try dsimp only at *) <;> (try simp) <;> omega))


set_option maxHeartbeats 1000000 in
/-- One Read from a state with nonnegative remaining never panics. -/
theorem Read_isSome {σ : Type} (rdr : Nat → σ → List Nat × Option Err × σ)
    (mbr : maxBytesReader) (ctx : Ctx) (cap : Nat) (s : σ)
    (h0 : 0 ≤ mbr.remaining) :
    (maxBytesReader.Read rdr mbr ctx cap s).isSome = true := by
  unfold maxBytesReader.Read tooLarge
  simp only []
  repeat' split
  all_goals simp
  all_goals omega

set_option maxHeartbeats 1000000 in
/-- When the underlying reader honours the reader contract (never more
bytes than requested), one Read decreases remaining by exactly the number
of bytes delivered. -/
theorem Read_delivered_step {σ : Type} (rdr : Nat → σ → List Nat × Option Err × σ)
    (hc : ∀ (req : Nat) (t : σ), ((rdr req t).1).length ≤ req)
    (mbr : maxBytesReader) (ctx : Ctx) (cap : Nat) (s : σ)
    (out : maxBytesReader × Ctx × σ × List Nat × Option Err)
    (h0 : 0 ≤ mbr.remaining)
    (h : maxBytesReader.Read rdr mbr ctx cap s = some out) :
    out.1.remaining + ((out.2.2.2.1).length : Int) = mbr.remaining := by
  have hcA := hc mbr.remaining.toNat s
  have hcB := hc cap s
  have hcC := hc ((1 : Int)).toNat s
  unfold maxBytesReader.Read tooLarge at h
  simp only [] at h
  repeat' split at h
  all_goals (first
    | exact Option.noConfusion h
    | (simp only [Option.some.injEq] at h; subst h;
       (try dsimp only at *) <;> (try simp) <;> omega))

set_option maxHeartbeats 1000000 in
/-- A Read entered with remaining = 0 delivers no bytes to the caller:
in particular the byte obtained by the 1-byte probe is discarded. -/
theorem Read_delivered_nil_at_zero {σ : Type} (rdr : Nat → σ → List Nat × Option Err × σ)
    (mbr : maxBytesReader) (ctx : Ctx) (cap : Nat) (s : σ)
    (out : maxBytesReader × Ctx × σ × List Nat × Option Err)
    (h0 : mbr.remaining = 0)
    (h : maxBytesReader.Read rdr mbr ctx cap s = some out) :
    out.2.2.2.1 = [] := by
  unfold maxBytesReader.Read tooLarge at h
  simp only [] at h
  repeat' split at h
  all_goals (first
    | exact Option.noConfusion h
    | (simp only [Option.some.injEq] at h; subst h;
       (try dsimp only at *) <;> simp_all <;> omega))


/-- The Read-step inequalities extended over any sequence of reads. -/
theorem runReads_remaining {σ : Type} (rdr : Nat → σ → List Nat × Option Err × σ) :
    ∀ (caps : List Nat) (mbr : maxBytesReader) (ctx : Ctx) (s : σ)
      (out : maxBytesReader × Ctx × σ × List Nat),
    0 ≤ mbr.remaining →
    runReads rdr caps mbr ctx s = some out →
    0 ≤ out.1.remaining ∧ out.1.remaining ≤ mbr.remaining ∧
      mbr.remaining ≤ out.1.remaining + ((out.2.2.2).length : Int) := by
  intro caps
  induction caps with
  | nil =>
    intro mbr ctx s out h0 h
    simp only [runReads, Option.some.injEq] at h
    subst h
    simpa using h0
  | cons cap caps ih =>
    intro mbr ctx s out h0 h
    rw [runReads] at h
    cases hr : maxBytesReader.Read rdr mbr ctx cap s with
    | none => rw [hr] at h; exact Option.noConfusion h
    | some o1 =>
      obtain ⟨mbr1, ctx1, s1, d, e⟩ := o1
      rw [hr] at h
      simp only [] at h
      cases hrr : runReads rdr caps mbr1 ctx1 s1 with
      | none => rw [hrr] at h; exact Option.noConfusion h
      | some o2 =>
        obtain ⟨mbr2, ctx2, s2, ds⟩ := o2
        rw [hrr] at h
        simp only [Option.some.injEq] at h
        subst h
        have h1 := Read_remaining_step rdr mbr ctx cap s (mbr1, ctx1, s1, d, e) h0 hr
        simp only [] at h1
        have h2 := ih mbr1 ctx1 s1 (mbr2, ctx2, s2, ds) h1.1 hrr
        simp only [] at h2
        simp only [List.length_append]
        try dsimp only
        try dsimp only at h1 h2
        push_cast
        push_cast at h1 h2
        omega


/-- No Read in a sequence panics when remaining starts nonnegative. -/
theorem runReads_isSome {σ : Type} (rdr : Nat → σ → List Nat × Option Err × σ) :
    ∀ (caps : List Nat) (mbr : maxBytesReader) (ctx : Ctx) (s : σ),
    0 ≤ mbr.remaining →
    (runReads rdr caps mbr ctx s).isSome = true := by
  intro caps
  induction caps with
  | nil => intro mbr ctx s h0; simp [runReads]
  | cons cap caps ih =>
    intro mbr ctx s h0
    have hsome := Read_isSome rdr mbr ctx cap s h0
    cases hr : maxBytesReader.Read rdr mbr ctx cap s with
    | none => rw [hr] at hsome; exact Bool.noConfusion hsome
    | some o1 =>
      obtain ⟨mbr1, ctx1, s1, d, e⟩ := o1
      have h1 := Read_remaining_step rdr mbr ctx cap s (mbr1, ctx1, s1, d, e) h0 hr
      have h2 := ih mbr1 ctx1 s1 h1.1
      obtain ⟨o2, hrr⟩ := Option.isSome_iff_exists.mp h2
      obtain ⟨mbr2, ctx2, s2, ds⟩ := o2
      rw [runReads, hr]
      simp only []
      rw [hrr]
      simp

/-- Under the reader contract, the total number of bytes delivered over a
sequence of reads equals the decrease in remaining. -/
theorem runReads_delivered {σ : Type} (rdr : Nat → σ → List Nat × Option Err × σ)
    (hc : ∀ (req : Nat) (t : σ), ((rdr req t).1).length ≤ req) :
    ∀ (caps : List Nat) (mbr : maxBytesReader) (ctx : Ctx) (s : σ)
      (out : maxBytesReader × Ctx × σ × List Nat),
    0 ≤ mbr.remaining →
    runReads rdr caps mbr ctx s = some out →
    out.1.remaining + ((out.2.2.2).length : Int) = mbr.remaining ∧
      0 ≤ out.1.remaining := by
  intro caps
  induction caps with
  | nil =>
    intro mbr ctx s out h0 h
    simp only [runReads, Option.some.injEq] at h
    subst h
    simpa using h0
  | cons cap caps ih =>
    intro mbr ctx s out h0 h
    rw [runReads] at h
    cases hr : maxBytesReader.Read rdr mbr ctx cap s with
    | none => rw [hr] at h; exact Option.noConfusion h
    | some o1 =>
      obtain ⟨mbr1, ctx1, s1, d, e⟩ := o1
      rw [hr] at h
      simp only [] at h
      cases hrr : runReads rdr caps mbr1 ctx1 s1 with
      | none => rw [hrr] at h; exact Option.noConfusion h
      | some o2 =>
        obtain ⟨mbr2, ctx2, s2, ds⟩ := o2
        rw [hrr] at h
        simp only [Option.some.injEq] at h
        subst h
        have h1 := Read_remaining_step rdr mbr ctx cap s (mbr1, ctx1, s1, d, e) h0 hr
        have h1d := Read_delivered_step rdr hc mbr ctx cap s (mbr1, ctx1, s1, d, e) h0 hr
        have h2 := ih mbr1 ctx1 s1 (mbr2, ctx2, s2, ds) h1.1 hrr
        simp only [List.length_append]
        try dsimp only
        try dsimp only at h1 h1d h2
        push_cast
        push_cast at h1 h1d h2
        omega

/-- A read loop with a separate buffer length per call: the n-th Read
uses a buffer of length caps[n].  Bytes delivered are appended and the
loop stops at the first non-nil error, which is returned; error `none`
means the list of reads was exhausted first or a Read panicked.  This
covers consumers whose buffer size varies between calls, io.ReadAll and
its growing buffer included. -/
def driveBodyCaps :
    List Nat → maxBytesReader → Ctx → List Nat → List Nat →
    maxBytesReader × Ctx × List Nat × List Nat × Option Err
  | [], mbr, ctx, s, acc => (mbr, ctx, s, acc, none)
  | cap :: caps, mbr, ctx, s, acc =>
    match maxBytesReader.Read bodyRead mbr ctx cap s with
    | none => (mbr, ctx, s, acc, none)
    | some (mbr1, ctx1, s1, d, none) => driveBodyCaps caps mbr1 ctx1 s1 (acc ++ d)
    | some (mbr1, ctx1, s1, d, some e) => (mbr1, ctx1, s1, acc ++ d, some e)

/-- Driving a varying-buffer read loop against a body of size S with
limit L and S at or under L: whenever every buffer holds at least one
byte and enough reads are available, every byte is delivered in order,
the loop ends with a clean end of stream, no abort fires and the context
is untouched.  Stated for the k-th intermediate state so that it can be
proved by induction on the list of buffer lengths. -/
theorem driveBodyCaps_under_aux (L : Nat) (body : List Nat)
    (hSL : body.length ≤ L) (ctx : Ctx) :
    ∀ (caps : List Nat) (k : Nat) (acc : List Nat),
    (∀ c ∈ caps, 1 ≤ c) → k ≤ body.length →
    body.length - k + 1 ≤ caps.length →
    driveBodyCaps caps ⟨((L - k : Nat) : Int), false, false⟩ ctx (body.drop k) acc
      = (⟨((L - body.length : Nat) : Int), false, true⟩, ctx, [],
         acc ++ body.drop k, some Err.eof) := by
  intro caps
  induction caps with
  | nil =>
    intro k acc hpos hk hlen
    simp only [List.length_nil] at hlen
    omega
  | cons cap caps ih =>
    intro k acc hpos hk hlen
    have hcap : 1 ≤ cap := hpos cap (by simp)
    have hpos2 : ∀ c ∈ caps, 1 ≤ c := fun c hc => hpos c (by simp [hc])
    by_cases hks : k = body.length
    · subst hks
      rw [List.drop_length]
      by_cases hLk : L = body.length
      · have hz : ((L - body.length : Nat) : Int) = 0 := by omega
        rw [hz]
        have hstep := Read_body_probe_eof ctx cap
        simp only [driveBodyCaps, hstep, List.append_nil]
      · have hrpos : 0 < L - body.length := by omega
        have hstep := Read_body_eof (L - body.length) hrpos ctx cap false
        simp only [driveBodyCaps, hstep, List.append_nil]
    · have hkS : k < body.length := by omega
      have hne : body.drop k ≠ [] := by
        intro h
        have := List.drop_eq_nil_iff.mp h
        omega
      have hrpos : 0 < L - k := by omega
      have hstep := Read_body_fill (L - k) hrpos ctx cap (body.drop k) hne false
      have hld : (body.drop k).length = body.length - k := by simp
      rw [hld] at hstep
      simp only [driveBodyCaps, hstep]
      set m1 := min cap (L - k) with hm1
      set m := min m1 (body.length - k) with hm
      have hm1pos : 1 ≤ m1 := by
        rw [hm1, Nat.min_def]; split_ifs <;> omega
      have hmpos : 1 ≤ m := by
        rw [hm, Nat.min_def]; split_ifs <;> omega
      have hmle : m ≤ body.length - k := by rw [hm]; omega
      have hrem : (L - k) - m = L - (k + m) := by omega
      have hdrop : (body.drop k).drop m1 = body.drop (k + m) := by
        rw [List.drop_drop]
        rcases le_or_lt m1 (body.length - k) with h | h
        · have : m = m1 := by rw [hm]; omega
          rw [this]
        · have h1 : body.length ≤ k + m1 := by omega
          have h2 : k + m = body.length := by rw [hm]; omega
          rw [List.drop_eq_nil_of_le h1, h2, List.drop_length]
      have htake : (body.drop k).take m1 = (body.drop k).take m := by
        rcases le_or_lt m1 (body.length - k) with h | h
        · have : m = m1 := by rw [hm]; omega
          rw [this]
        · have h1 : (body.drop k).length ≤ m1 := by rw [hld]; omega
          have h2 : (body.drop k).length ≤ m := by rw [hld, hm]; omega
          rw [List.take_of_length_le h1, List.take_of_length_le h2]
      rw [hrem, hdrop, htake]
      rw [ih (k + m) (acc ++ (body.drop k).take m) hpos2 (by omega) (by simp at hlen; omega)]
      rw [List.append_assoc]
      rw [← List.drop_drop]
      rw [List.take_append_drop]

/-!
Claim theorems.  Each theorem settles one claim of the specification
against the embedding above.
-/

/-- C1: for every limit L ≥ 0 and request body of size S > L, a read loop
through the gate delivers exactly the first L bytes, the next Read returns
the overflow error with zero bytes, the abort side effects (413 response
with the fixed JSON body, Connection close header, one context error) are
performed exactly once, and any further Read repeats the terminal error
without new effects. -/
theorem claim_C1_overflow (L cap fuel : Nat) (body : List Nat) (ctx : Ctx)
    (hS : L < body.length) (hcap : 1 ≤ cap) (hfuel : L + 1 ≤ fuel) :
    driveBody cap fuel (RequestSizeLimiter (L : Int)) ctx body []
        = (⟨0, true, false⟩, applyAbort ctx, body.drop (L + 1),
           body.take L, some Err.tooLarge)
      ∧ (body.take L).length = L
      ∧ (∀ (σ : Type) (rdr : Nat → σ → List Nat × Option Err × σ) (cap2 : Nat) (s2 : σ),
          maxBytesReader.Read rdr ⟨0, true, false⟩ (applyAbort ctx) cap2 s2
            = some (⟨0, true, false⟩, applyAbort ctx, s2, [], some Err.tooLarge))
      ∧ (applyAbort ctx).errors = ctx.errors ++ [Err.tooLarge]
      ∧ (applyAbort ctx).headers = ctx.headers ++ [("Connection", "close")]
      ∧ (applyAbort ctx).responses = ctx.responses ++ [(413, errorJSON)] := by
  refine ⟨?_, ?_, ?_, rfl, rfl, rfl⟩
  · have h := driveBody_over_aux L cap hcap body hS ctx fuel 0 [] (by omega) (by omega)
    simpa [RequestSizeLimiter] using h
  · simp [List.length_take]
    omega
  · intro σ rdr cap2 s2
    exact Read_of_wasAborted rdr _ _ _ _ rfl

/-- C1 witness: limit 1, body of three bytes, buffer length 2. -/
theorem claim_C1_witness :
    driveBody 2 5 (RequestSizeLimiter 1) emptyCtx [7, 8, 9] []
      = (⟨0, true, false⟩, applyAbort emptyCtx, [9], [7], some Err.tooLarge) := by
  have h := (claim_C1_overflow 1 2 5 [7, 8, 9] emptyCtx (by decide) (by decide) (by decide)).1
  simpa using h

/-- C2 counterexample: with limit 0 and the empty body (S = 0 ≤ L = 0),
the two-read sequence with one-byte buffers fires the abort sequence and
records an error on the context, although the claim promises that for
S ≤ L no abort fires and no error is recorded under any sequence of
reads. -/
theorem claim_C2_counterexample :
    runReads bodyRead [1, 1] (RequestSizeLimiter 0) emptyCtx ([] : List Nat)
        = some (⟨0, true, true⟩, applyAbort emptyCtx, [], [])
      ∧ (applyAbort emptyCtx).errors = [Err.tooLarge]
      ∧ (applyAbort emptyCtx).aborted = true := by
  refine ⟨?_, rfl, rfl⟩
  rfl

/-- C2 (amended): for every limit L ≥ 0 and body of size S ≤ L
(S = L included), any sequence of Read calls whose per-call buffer
lengths are arbitrary but hold at least one byte each — so the body may
be split into any number of chunks of any, possibly different, sizes —
that stops at the first error or end-of-stream report, the discipline of
every standard read loop, and has at least S + 1 reads available,
delivers all S bytes in order, sees a clean end of stream, fires no
abort and records nothing on the context.  (As stated the claim fails:
at S = L exactly, reading again after end of stream has been reported
fires the abort, as the counterexample shows; that is the only
restriction the amendment adds.) -/
theorem claim_C2_amended (L : Nat) (body : List Nat) (ctx : Ctx) (caps : List Nat)
    (hS : body.length ≤ L) (hcaps : ∀ c ∈ caps, 1 ≤ c)
    (hlen : body.length + 1 ≤ caps.length) :
    driveBodyCaps caps (RequestSizeLimiter (L : Int)) ctx body []
      = (⟨((L - body.length : Nat) : Int), false, true⟩, ctx, [], body, some Err.eof) := by
  have h := driveBodyCaps_under_aux L body hS ctx caps 0 [] hcaps (by omega) (by omega)
  simpa [RequestSizeLimiter] using h

/-- C2 witness: limit 10, body of five bytes read with mixed buffer
lengths 2, 3, 4, then trailing 1-byte reads. -/
theorem claim_C2_witness :
    driveBodyCaps [2, 3, 4, 1, 1, 1] (RequestSizeLimiter 10) emptyCtx [1, 2, 3, 4, 5] []
      = (⟨5, false, true⟩, emptyCtx, [], [1, 2, 3, 4, 5], some Err.eof) := by
  have h := claim_C2_amended 10 [1, 2, 3, 4, 5] emptyCtx [2, 3, 4, 1, 1, 1]
    (by decide) (by decide) (by decide)
  simpa using h

/-- C3: after the abort sequence has fired, every subsequent Read on the
gate returns zero bytes and the same terminal error immediately, with the
context, the stream state and the gate state all unchanged — so no error
is re-appended, no header re-set, no response re-written, and the
underlying stream is not read. -/
theorem claim_C3_idempotent {σ : Type} (rdr : Nat → σ → List Nat × Option Err × σ)
    (mbr : maxBytesReader) (ctx : Ctx) (cap : Nat) (s : σ)
    (h : mbr.wasAborted = true) :
    maxBytesReader.Read rdr mbr ctx cap s = some (mbr, ctx, s, [], some Err.tooLarge) :=
  Read_of_wasAborted rdr mbr ctx cap s h

/-- C3 witness: an aborted gate with remaining 5 and a nonempty body. -/
theorem claim_C3_witness :
    maxBytesReader.Read bodyRead ⟨5, true, false⟩ emptyCtx 3 [1, 2]
      = some (⟨5, true, false⟩, emptyCtx, [1, 2], [], some Err.tooLarge) :=
  claim_C3_idempotent bodyRead ⟨5, true, false⟩ emptyCtx 3 [1, 2] rfl

/-- C5: a Read entered with remaining = 0 and sawEOF true (and the abort
not yet fired) invokes the abort sequence and returns zero bytes with the
terminal error, without reading from the underlying stream. -/
theorem claim_C5_exhausted_overflow {σ : Type} (rdr : Nat → σ → List Nat × Option Err × σ)
    (mbr : maxBytesReader) (ctx : Ctx) (cap : Nat) (s : σ)
    (h1 : mbr.wasAborted = false) (h2 : mbr.remaining = 0) (h3 : mbr.sawEOF = true) :
    maxBytesReader.Read rdr mbr ctx cap s
      = some ({ mbr with wasAborted := true }, applyAbort ctx, s, [], some Err.tooLarge) :=
  Read_overflow_exhausted rdr mbr ctx cap s h1 h2 h3

/-- C5 witness: a gate at the ceiling that has seen end of stream. -/
theorem claim_C5_witness :
    maxBytesReader.Read bodyRead ⟨0, false, true⟩ emptyCtx 4 [1]
      = some (⟨0, true, true⟩, applyAbort emptyCtx, [1], [], some Err.tooLarge) :=
  claim_C5_exhausted_overflow bodyRead ⟨0, false, true⟩ emptyCtx 4 [1] rfl rfl rfl

/-- C9: Close forwards exactly to the underlying stream's close and
returns its status, leaving the gate state and the request context
unchanged. -/
theorem claim_C9_close_forwards {σ : Type} (rdrClose : σ → Option Err × σ)
    (mbr : maxBytesReader) (ctx : Ctx) (s : σ) :
    maxBytesReader.Close rdrClose mbr ctx s = (mbr, ctx, rdrClose s) :=
  rfl

/-- C4 counterexample: a Read at remaining = 0, sawEOF false, with a
zero-length buffer issues a request of 0 bytes to the underlying stream,
not the 1 byte the claim promises for every buffer size. -/
theorem claim_C4_counterexample :
    reqLog (maxBytesReader.Read (recording bodyRead) ⟨0, false, false⟩ emptyCtx 0 ([9], []))
        = some [0]
      ∧ some [0] ≠ (some [1] : Option (List Nat)) :=
  ⟨rfl, by decide⟩

/-- C4 (amended): a Read at remaining = 0 with sawEOF still false issues
exactly one request to the underlying stream, of min C 1 bytes: exactly
1 byte for every buffer of length C ≥ 1, but 0 bytes when C = 0, since
the probe is capped by the caller's buffer.  (As stated the claim fails
for the zero-length buffer, as the counterexample shows.) -/
theorem claim_C4_amended {σ : Type} (rdr : Nat → σ → List Nat × Option Err × σ)
    (mbr : maxBytesReader) (ctx : Ctx) (cap : Nat) (s : σ)
    (h1 : mbr.wasAborted = false) (h2 : mbr.remaining = 0) (h3 : mbr.sawEOF = false) :
    reqLog (maxBytesReader.Read (recording rdr) mbr ctx cap (s, []))
      = some [min cap 1] := by
  unfold maxBytesReader.Read recording reqLog tooLarge
  simp only [h1, h2, h3]
  norm_num
  repeat' split
  all_goals simp
  all_goals omega

/-- C4 witness: a 3-byte buffer at the ceiling requests exactly 1 byte. -/
theorem claim_C4_witness :
    reqLog (maxBytesReader.Read (recording bodyRead) ⟨0, false, false⟩ emptyCtx 3 ([7], []))
      = some [min 3 1] :=
  claim_C4_amended bodyRead ⟨0, false, false⟩ emptyCtx 3 [7] rfl rfl rfl

/-- C6: remaining stays within 0 and the limit: a single Read from a
nonnegative remaining leaves it nonnegative, never increases it, and
decreases it by at most the bytes delivered; over any sequence of reads
from construction with limit L, the final remaining satisfies
0 ≤ remaining ≤ L. -/
theorem claim_C6_remaining_invariant :
    (∀ (σ : Type) (rdr : Nat → σ → List Nat × Option Err × σ)
        (mbr : maxBytesReader) (ctx : Ctx) (cap : Nat) (s : σ)
        (out : maxBytesReader × Ctx × σ × List Nat × Option Err),
      0 ≤ mbr.remaining →
      maxBytesReader.Read rdr mbr ctx cap s = some out →
      0 ≤ out.1.remaining ∧ out.1.remaining ≤ mbr.remaining ∧
        mbr.remaining ≤ out.1.remaining + ((out.2.2.2.1).length : Int))
    ∧ (∀ (σ : Type) (rdr : Nat → σ → List Nat × Option Err × σ)
        (caps : List Nat) (L : Nat) (ctx : Ctx) (s : σ)
        (out : maxBytesReader × Ctx × σ × List Nat),
      runReads rdr caps (RequestSizeLimiter (L : Int)) ctx s = some out →
      0 ≤ out.1.remaining ∧ out.1.remaining ≤ (L : Int)) := by
  constructor
  · intro σ rdr mbr ctx cap s out h0 h
    exact Read_remaining_step rdr mbr ctx cap s out h0 h
  · intro σ rdr caps L ctx s out h
    have h0 : (0 : Int) ≤ (RequestSizeLimiter (L : Int)).remaining := by
      simp [RequestSizeLimiter]
    have hrun := runReads_remaining rdr caps (RequestSizeLimiter (L : Int)) ctx s out h0 h
    refine ⟨hrun.1, ?_⟩
    have := hrun.2.1
    simpa [RequestSizeLimiter] using this

/-- C6 witness: one Read of one byte from limit 2. -/
theorem claim_C6_witness :
    maxBytesReader.Read bodyRead ⟨2, false, false⟩ emptyCtx 1 [5, 6]
        = some (⟨1, false, false⟩, emptyCtx, [6], [5], none)
      ∧ ((0 : Int) ≤ 1 ∧ (1 : Int) ≤ 2 ∧ (2 : Int) ≤ 1 + 1) := by
  refine ⟨rfl, ?_⟩
  have h := claim_C6_remaining_invariant.1 (List Nat) bodyRead ⟨2, false, false⟩ emptyCtx 1
    [5, 6] (⟨1, false, false⟩, emptyCtx, [6], [5], none) (by decide) rfl
  simpa using h

/-- C7: no Read sequence from a gate constructed with limit L ≥ 0 panics,
for any underlying reader, any buffer lengths (zero included), and any
body — the only panic source in Read, the negative slice bound, needs a
negative remaining.  Close and construction are total functions of the
embedding and cannot panic. -/
theorem claim_C7_no_panic (σ : Type) (rdr : Nat → σ → List Nat × Option Err × σ)
    (caps : List Nat) (limit : Int) (ctx : Ctx) (s : σ)
    (h0 : 0 ≤ limit) :
    (runReads rdr caps (RequestSizeLimiter limit) ctx s).isSome = true :=
  runReads_isSome rdr caps (RequestSizeLimiter limit) ctx s (by simpa [RequestSizeLimiter] using h0)

/-- C7 witness: limit 0, empty body, zero-length buffer. -/
theorem claim_C7_witness :
    (runReads bodyRead [0] (RequestSizeLimiter 0) emptyCtx ([] : List Nat)).isSome = true :=
  claim_C7_no_panic (List Nat) bodyRead [0] 0 emptyCtx [] (by decide)

/-- C8: a Read that does not trigger overflow returns the bytes and the
status of the underlying stream unchanged — end of stream and any other
underlying error included — with the context untouched; the only gate
bookkeeping is the sticky sawEOF flag and the remaining decrement. -/
theorem claim_C8_passthrough {σ : Type} (rdr : Nat → σ → List Nat × Option Err × σ)
    (mbr : maxBytesReader) (ctx : Ctx) (cap : Nat) (s : σ)
    (chunk : List Nat) (err : Option Err) (s2 : σ)
    (h0 : 0 ≤ mbr.remaining) (h1 : mbr.wasAborted = false)
    (h2 : ¬ (mbr.remaining = 0 ∧ mbr.sawEOF = true))
    (hr : ∀ req : Nat, rdr req s = (chunk, err, s2))
    (hov : ¬ (mbr.remaining = 0 ∧ chunk ≠ [])) :
    ∃ mbr2 : maxBytesReader,
      maxBytesReader.Read rdr mbr ctx cap s = some (mbr2, ctx, s2, chunk, err)
        ∧ mbr2.sawEOF = (if err = some Err.eof then true else mbr.sawEOF)
        ∧ mbr2.wasAborted = false := by
  have hms : ∀ b : maxBytesReader,
      (if err = some Err.eof then { b with sawEOF := true } else b).remaining
        = b.remaining := by
    intro b; split <;> rfl
  unfold maxBytesReader.Read
  rw [if_neg (by simp [h1]), if_neg h2]
  simp only []
  rw [hr]
  by_cases hz : mbr.remaining = 0
  · have hch : chunk = [] := by
      by_contra hc; exact hov ⟨hz, hc⟩
    rw [if_pos hz]
    rw [if_neg (by norm_num : ¬ (1 : Int) < 0)]
    dsimp only
    rw [if_pos (by rw [hms]; exact hz)]
    rw [hch]
    simp only [List.length_nil, lt_irrefl, if_false]
    exact ⟨_, rfl, by split <;> rfl, by split <;> simp [h1]⟩
  · rw [if_neg hz]
    rw [if_neg (by omega : ¬ mbr.remaining < 0)]
    dsimp only
    rw [if_neg (by rw [hms]; exact hz)]
    exact ⟨_, rfl, by split <;> rfl, by split <;> simp [h1]⟩

/-- C8 witness: a reader that always yields one byte with no error,
read through a gate with remaining 3. -/
theorem claim_C8_witness :
    ∃ mbr2 : maxBytesReader,
      maxBytesReader.Read (fun _ t => ([4], none, t)) ⟨3, false, false⟩ emptyCtx 2
          ([] : List Nat)
        = some (mbr2, emptyCtx, [], [4], none)
        ∧ mbr2.sawEOF = (if (none : Option Err) = some Err.eof then true else false)
        ∧ mbr2.wasAborted = false :=
  claim_C8_passthrough (fun _ t => ([4], none, t)) ⟨3, false, false⟩ emptyCtx 2 [] [4] none []
    (by decide) rfl (by decide) (fun _ => rfl) (by decide)

/-- C10: when the underlying stream honours the reader contract, the
total number of bytes a gate constructed with limit L delivers over any
sequence of reads is exactly L minus the final remaining, hence at most
L; and a Read entered at the ceiling (remaining = 0) delivers no bytes,
so the probe byte is discarded rather than delivered. -/
theorem claim_C10_delivered_bounded :
    (∀ (σ : Type) (rdr : Nat → σ → List Nat × Option Err × σ),
      (∀ (req : Nat) (t : σ), ((rdr req t).1).length ≤ req) →
      ∀ (caps : List Nat) (L : Nat) (ctx : Ctx) (s : σ)
        (out : maxBytesReader × Ctx × σ × List Nat),
      runReads rdr caps (RequestSizeLimiter (L : Int)) ctx s = some out →
      (((out.2.2.2).length : Int) + out.1.remaining = (L : Int) ∧ (out.2.2.2).length ≤ L))
    ∧ (∀ (σ : Type) (rdr : Nat → σ → List Nat × Option Err × σ)
        (mbr : maxBytesReader) (ctx : Ctx) (cap : Nat) (s : σ)
        (out : maxBytesReader × Ctx × σ × List Nat × Option Err),
      mbr.remaining = 0 →
      maxBytesReader.Read rdr mbr ctx cap s = some out →
      out.2.2.2.1 = []) := by
  constructor
  · intro σ rdr hc caps L ctx s out h
    have h0 : (0 : Int) ≤ (RequestSizeLimiter (L : Int)).remaining := by
      simp [RequestSizeLimiter]
    have hd := runReads_delivered rdr hc caps (RequestSizeLimiter (L : Int)) ctx s out h0 h
    have e1 := hd.1
    have e2 := hd.2
    simp only [RequestSizeLimiter] at e1
    constructor
    · omega
    · omega
  · intro σ rdr mbr ctx cap s out hz h
    exact Read_delivered_nil_at_zero rdr mbr ctx cap s out hz h

/-- C10 witness: limit 1, body of two bytes, one read with a 2-byte
buffer delivers exactly 1 byte. -/
theorem claim_C10_witness :
    runReads bodyRead [2] (RequestSizeLimiter 1) emptyCtx [3, 4]
        = some (⟨0, false, false⟩, emptyCtx, [4], [3])
      ∧ (((1 : Nat) : Int) + 0 = ((1 : Nat) : Int) ∧ (1 : Nat) ≤ 1) := by
  refine ⟨rfl, ?_⟩
  have h := claim_C10_delivered_bounded.1 (List Nat) bodyRead
    (by intro req t; simp [bodyRead]; split <;> simp) [2] 1 emptyCtx [3, 4]
    (⟨0, false, false⟩, emptyCtx, [4], [3]) rfl
  simpa using h

end GinSize
